import Mathlib

/-!
Shallow embedding of the Game of Life engine from `src/lib.rs`
(`Cell`, `Universe`, `get_idx`, `live_neighbor_count`, `tick`, `new`,
and the `Display` rendering), together with theorems settling the
specification's claims about it.

The Rust `Vec<Cell>` buffer is modelled as a `List Cell`; machine
indices are modelled as `Nat` (in-bounds accesses are proved, so no
overflow or panic behaviour is reachable in the modelled states).
Indexing `self.cells[idx]` is modelled by `List.getD` with a default
that the index-safety theorems show is never consulted on the states
the claims quantify over.
-/

/-- A cell of the grid: `Dead = 0` or `Alive = 1` in the source. -/
inductive Cell where
  | Dead : Cell
  | Alive : Cell
deriving DecidableEq

/-- Numeric value of a cell, as in `self.cells[idx] as u8`. -/
def cellVal : Cell → Nat
  | Cell.Dead => 0
  | Cell.Alive => 1

/-- The universe: a width, a height, and a flat row-major cell buffer. -/
structure Universe where
  width : Nat
  height : Nat
  cells : List Cell
deriving DecidableEq

namespace Universe

/-- Flat index of `(row, col)`: `row * self.width + col`. -/
def get_idx (u : Universe) (row col : Nat) : Nat :=
  row * u.width + col

/-- Read of the cell buffer at a flat index (`self.cells[idx]`). The
default value is never consulted on in-bounds accesses, which the
index-safety results establish for all states the claims range over. -/
def cellAt (u : Universe) (idx : Nat) : Cell :=
  u.cells.getD idx Cell.Dead

/-- Live-neighbor count, transcribed from the source: iterate
`d_row` over `[self.height - 1, 0, 1]` and `d_col` over
`[self.width - 1, 0, 1]`, `continue` when both offset values are `0`,
and otherwise add the value of the cell at the wrapped coordinates
`((d_row + row) % self.height, (d_col + col) % self.width)`. -/
def live_neighbor_count (u : Universe) (row col : Nat) : Nat :=
  [u.height - 1, 0, 1].foldl (fun count d_row =>
    [u.width - 1, 0, 1].foldl (fun count d_col =>
      if d_row = 0 ∧ d_col = 0 then count
      else count +
        cellVal (u.cellAt (u.get_idx ((d_row + row) % u.height)
          ((d_col + col) % u.width)))) count) 0

/-- The transition rule for one cell, transcribed from the `match` in
`tick` in source order: alive with fewer than 2 live neighbors dies,
alive with 2 or 3 survives, alive with more than 3 dies, dead with
exactly 3 becomes alive, anything else keeps its current state. -/
def nextCell (cell : Cell) (n : Nat) : Cell :=
  if cell = Cell.Alive ∧ n < 2 then Cell.Dead
  else if cell = Cell.Alive ∧ (n = 2 ∨ n = 3) then Cell.Alive
  else if cell = Cell.Alive ∧ 3 < n then Cell.Dead
  else if cell = Cell.Dead ∧ n = 3 then Cell.Alive
  else cell

/-- Inner loop of `tick`, columns `0..n`: write the new value of each
position of row `row` into the buffer `next`, reading only `u`. -/
def writeRowAux (u : Universe) (row : Nat) (next : List Cell) (n : Nat) :
    List Cell :=
  (List.range n).foldl (fun next col =>
    next.set (u.get_idx row col)
      (nextCell (u.cellAt (u.get_idx row col))
        (u.live_neighbor_count row col))) next

/-- Outer loop of `tick`, rows `0..m`, starting from `next = self.cells.clone()`. -/
def tickAux (u : Universe) (m : Nat) : List Cell :=
  (List.range m).foldl (fun next row => writeRowAux u row next u.width) u.cells

/-- One generation step: compute the whole next buffer from the old
one, then replace `self.cells` with it (`self.cells = next`). Width
and height are untouched. -/
def tick (u : Universe) : Universe :=
  { u with cells := tickAux u u.height }

/-- Iterated ticks: `tickN n u` is the state after `n` calls of `tick`. -/
def tickN : Nat → Universe → Universe
  | 0, u => u
  | n + 1, u => (tickN n u).tick

/-- The constructor `Universe::new()`: a fixed `128 × 64` grid whose
cell at flat index `i` is alive iff `i % 2 == 0 || i % 7 == 0`. -/
def new : Universe :=
  let width := 128
  let height := 64
  let cells := (List.range (width * height)).map (fun i =>
    if i % 2 = 0 ∨ i % 7 = 0 then Cell.Alive else Cell.Dead)
  { width := width, height := height, cells := cells }

/-- The glyph the `Display` impl writes for one cell. -/
def cellGlyph (cell : Cell) : Char :=
  if cell = Cell.Alive then '◻' else '◼'

end Universe

/-- Row chunks of the buffer, as produced by `chunks(self.width)` on
the cell slice: successive groups of `w` elements (the source only
invokes it with `w > 0` and the buffer length a multiple of `w`). -/
def chunksOf (w : Nat) (l : List Cell) : List (List Cell) :=
  if h : l = [] ∨ w = 0 then []
  else l.take w :: chunksOf w (l.drop w)
termination_by l.length
decreasing_by
  simp only [List.length_drop]
  push_neg at h
  have hl : 0 < l.length := List.length_pos.mpr h.1
  omega

namespace Universe

/-- The `Display` rendering as a character sequence: for each
width-chunk of the buffer, one glyph per cell, followed by a newline. -/
def renderChars (u : Universe) : List Char :=
  ((chunksOf u.width u.cells).map (fun line => line.map cellGlyph ++ ['\n'])).flatten

/-- Spec-side offset pairs, written from the spec's words: the product
of the row offsets `{height-1, 0, 1}` and the column offsets
`{width-1, 0, 1}`, with the pairs whose offset values are `(0, 0)`
skipped. -/
def specOffsetPairs (u : Universe) : List (Nat × Nat) :=
  [(u.height - 1, u.width - 1), (u.height - 1, 0), (u.height - 1, 1),
   (0, u.width - 1), (0, 0), (0, 1),
   (1, u.width - 1), (1, 0), (1, 1)].filter
    (fun p => !(p.1 == 0 && p.2 == 0))

/-- Spec-side toroidal neighbor sum, written from the spec's words:
sum, over the non-skipped offset pairs, of the value of the cell at
the coordinates wrapped modulo the respective dimension. -/
def specToroidalCount (u : Universe) (row col : Nat) : Nat :=
  ((u.specOffsetPairs).map (fun p =>
    cellVal (u.cellAt (u.get_idx ((p.1 + row) % u.height)
      ((p.2 + col) % u.width))))).sum

/-- Contribution of a single offset pair to `live_neighbor_count`:
zero when the pair is skipped, the wrapped neighbor's value otherwise. -/
def contrib (u : Universe) (row col d_row d_col : Nat) : Nat :=
  if d_row = 0 ∧ d_col = 0 then 0
  else cellVal (u.cellAt (u.get_idx ((d_row + row) % u.height)
    ((d_col + col) % u.width)))

end Universe

/-- A 4 × 4 universe holding a single 2 × 2 block of alive cells at
rows 1-2, columns 1-2, all other cells dead. -/
def blockU : Universe :=
  ⟨4, 4,
   [Cell.Dead, Cell.Dead, Cell.Dead, Cell.Dead,
    Cell.Dead, Cell.Alive, Cell.Alive, Cell.Dead,
    Cell.Dead, Cell.Alive, Cell.Alive, Cell.Dead,
    Cell.Dead, Cell.Dead, Cell.Dead, Cell.Dead]⟩

/-- A width-2, height-3 universe with a single alive cell at (0, 1),
horizontally adjacent to (0, 0). -/
def narrowU : Universe :=
  ⟨2, 3,
   [Cell.Dead, Cell.Alive,
    Cell.Dead, Cell.Dead,
    Cell.Dead, Cell.Dead]⟩

/-- A width-1, height-3 universe whose only alive cell is (0, 0) itself. -/
def thinU : Universe :=
  ⟨1, 3, [Cell.Alive, Cell.Dead, Cell.Dead]⟩

/-- A 3 × 3 universe whose only alive cell is the corner (2, 2). -/
def cornerU : Universe :=
  ⟨3, 3,
   [Cell.Dead, Cell.Dead, Cell.Dead,
    Cell.Dead, Cell.Dead, Cell.Dead,
    Cell.Dead, Cell.Dead, Cell.Alive]⟩

/-! ## Helper lemmas -/

theorem cellVal_le_one (c : Cell) : cellVal c ≤ 1 := by
  cases c <;> simp [cellVal]

theorem cell_eq_dead_of_ne_alive {c : Cell} (h : c ≠ Cell.Alive) :
    c = Cell.Dead := by
  cases c
  · rfl
  · exact absurd rfl h

theorem ite_skip_add (P : Prop) [Decidable P] (acc v : Nat) :
    (if P then acc else acc + v) = acc + (if P then 0 else v) := by
  by_cases h : P <;> simp [h]

namespace Universe

theorem contrib_le_one (u : Universe) (row col a b : Nat) :
    u.contrib row col a b ≤ 1 := by
  unfold contrib
  split
  · exact Nat.zero_le 1
  · exact cellVal_le_one _

theorem live_neighbor_count_eq (u : Universe) (row col : Nat) :
    u.live_neighbor_count row col =
      u.contrib row col (u.height - 1) (u.width - 1) +
      u.contrib row col (u.height - 1) 0 +
      u.contrib row col (u.height - 1) 1 +
      u.contrib row col 0 (u.width - 1) +
      u.contrib row col 0 1 +
      u.contrib row col 1 (u.width - 1) +
      u.contrib row col 1 0 +
      u.contrib row col 1 1 := by
  simp only [live_neighbor_count, List.foldl_cons, List.foldl_nil, ite_skip_add,
    contrib]
  simp

end Universe

namespace Universe

/-- C3: on every well-formed universe and in-range cell position the
live-neighbor count lies in the inclusive range [0, 8]: the skipped
(0, 0) offset pair leaves at most eight summands, each contributing at
most one. -/
theorem live_neighbor_count_mem_range (u : Universe) (hw : 0 < u.width)
    (hh : 0 < u.height) (hlen : u.cells.length = u.width * u.height)
    (row col : Nat) (hr : row < u.height) (hc : col < u.width) :
    0 ≤ u.live_neighbor_count row col ∧ u.live_neighbor_count row col ≤ 8 := by
  refine ⟨Nat.zero_le _, ?_⟩
  rw [live_neighbor_count_eq]
  have h1 := u.contrib_le_one row col (u.height - 1) (u.width - 1)
  have h2 := u.contrib_le_one row col (u.height - 1) 0
  have h3 := u.contrib_le_one row col (u.height - 1) 1
  have h4 := u.contrib_le_one row col 0 (u.width - 1)
  have h5 := u.contrib_le_one row col 0 1
  have h6 := u.contrib_le_one row col 1 (u.width - 1)
  have h7 := u.contrib_le_one row col 1 0
  have h8 := u.contrib_le_one row col 1 1
  omega

/-- C3 witness: the bound instantiated on a concrete universe and cell. -/
theorem live_neighbor_count_mem_range_wit :
    0 ≤ blockU.live_neighbor_count 1 1 ∧ blockU.live_neighbor_count 1 1 ≤ 8 :=
  blockU.live_neighbor_count_mem_range (by decide) (by decide) (by decide)
    1 1 (by decide) (by decide)

/-- C2: neighbor lookup is toroidal. The counting loop agrees with the
spec-side description (row offsets {height-1, 0, 1} times column
offsets {width-1, 0, 1} with the (0, 0)-valued pairs skipped, each
coordinate taken modulo its dimension); an alive cell at
(height-1, width-1) is counted among the neighbors of (0, 0); the row
above row 0 wraps to row height-1, and the column right of column
width-1 wraps to column 0. -/
theorem toroidal_neighbors (u : Universe) (hw : 1 ≤ u.width)
    (hh : 1 ≤ u.height) :
    (∀ row col, u.live_neighbor_count row col = u.specToroidalCount row col) ∧
    (u.cellAt (u.get_idx (u.height - 1) (u.width - 1)) = Cell.Alive →
      1 ≤ u.live_neighbor_count 0 0) ∧
    (u.height - 1 + 0) % u.height = u.height - 1 ∧
    (1 + (u.width - 1)) % u.width = 0 := by
  have e1 : (u.height - 1 + 0) % u.height = u.height - 1 := by
    rw [Nat.add_zero]
    exact Nat.mod_eq_of_lt (by omega)
  have e2 : (1 + (u.width - 1)) % u.width = 0 := by
    have : 1 + (u.width - 1) = u.width := by omega
    rw [this, Nat.mod_self]
  refine ⟨?_, ?_, e1, e2⟩
  · intro row col
    rw [live_neighbor_count_eq]
    by_cases h1 : u.height - 1 = 0 <;> by_cases h2 : u.width - 1 = 0 <;>
      simp [specToroidalCount, specOffsetPairs, contrib, h1, h2] <;> ring
  · intro halive
    rw [live_neighbor_count_eq]
    by_cases hskip : u.height - 1 = 0 ∧ u.width - 1 = 0
    · have hh1 : u.height = 1 := by omega
      have hw1 : u.width = 1 := by omega
      have hidx : u.get_idx (u.height - 1) (u.width - 1) = 0 := by
        simp [get_idx, hh1, hw1]
      have hcorner : u.contrib 0 0 1 1 = 1 := by
        rw [contrib, if_neg (by simp)]
        simp only [hh1, hw1, Nat.add_zero]
        have : (1 : Nat) % 1 = 0 := rfl
        rw [this]
        have : u.get_idx 0 0 = 0 := by simp [get_idx]
        rw [this]
        rw [hidx] at halive
        rw [halive]
        rfl
      omega
    · have hcorner : u.contrib 0 0 (u.height - 1) (u.width - 1) = 1 := by
        rw [contrib, if_neg hskip]
        have e3 : (u.width - 1 + 0) % u.width = u.width - 1 := by
          rw [Nat.add_zero]
          exact Nat.mod_eq_of_lt (by omega)
        rw [e1, e3, halive]
        rfl
      omega

/-- C2 witness: on a 3 × 3 universe whose only alive cell is the
corner (2, 2), the loop agrees with the spec-side sum and the corner
is counted among the neighbors of (0, 0). -/
theorem toroidal_neighbors_wit :
    cornerU.live_neighbor_count 0 0 = cornerU.specToroidalCount 0 0 ∧
    1 ≤ cornerU.live_neighbor_count 0 0 := by
  have h := cornerU.toroidal_neighbors (by decide) (by decide)
  exact ⟨h.1 0 0, h.2.1 (by decide)⟩

end Universe

namespace Universe

theorem writeRowAux_succ (u : Universe) (row : Nat) (next : List Cell) (n : Nat) :
    writeRowAux u row next (n + 1) =
      (writeRowAux u row next n).set (u.get_idx row n)
        (nextCell (u.cellAt (u.get_idx row n)) (u.live_neighbor_count row n)) := by
  simp [writeRowAux, List.range_succ]

theorem writeRowAux_length (u : Universe) (row : Nat) (next : List Cell) (n : Nat) :
    (writeRowAux u row next n).length = next.length := by
  induction n with
  | zero => rfl
  | succ n ih => rw [writeRowAux_succ, List.length_set, ih]

theorem writeRowAux_getD_ne (u : Universe) (row : Nat) (next : List Cell)
    (n j : Nat) (d : Cell) (hne : ∀ c, c < n → j ≠ u.get_idx row c) :
    (writeRowAux u row next n).getD j d = next.getD j d := by
  induction n with
  | zero => rfl
  | succ n ih =>
    rw [writeRowAux_succ, List.getD_eq_getElem?_getD,
      List.getElem?_set_ne (Ne.symm (hne n (Nat.lt_succ_self n))),
      ← List.getD_eq_getElem?_getD]
    exact ih (fun c hc => hne c (Nat.lt_succ_of_lt hc))

theorem writeRowAux_getD_set (u : Universe) (row : Nat) (next : List Cell)
    (n c : Nat) (d : Cell) (hc : c < n) (hlt : u.get_idx row c < next.length) :
    (writeRowAux u row next n).getD (u.get_idx row c) d =
      nextCell (u.cellAt (u.get_idx row c)) (u.live_neighbor_count row c) := by
  induction n with
  | zero => omega
  | succ n ih =>
    rw [writeRowAux_succ]
    by_cases hcn : c = n
    · subst hcn
      rw [List.getD_eq_getElem?_getD,
        List.getElem?_set_self (by rw [writeRowAux_length]; exact hlt)]
      rfl
    · have hne : u.get_idx row n ≠ u.get_idx row c := by
        simp only [get_idx]
        intro h
        exact hcn (Nat.add_left_cancel h).symm
      rw [List.getD_eq_getElem?_getD, List.getElem?_set_ne hne,
        ← List.getD_eq_getElem?_getD]
      exact ih (by omega)

theorem tickAux_succ (u : Universe) (m : Nat) :
    tickAux u (m + 1) = writeRowAux u m (tickAux u m) u.width := by
  simp [tickAux, List.range_succ]

theorem tickAux_length (u : Universe) (m : Nat) :
    (tickAux u m).length = u.cells.length := by
  induction m with
  | zero => rfl
  | succ m ih => rw [tickAux_succ, writeRowAux_length, ih]

theorem get_idx_inj (u : Universe) {r c r' c' : Nat} (hc : c < u.width)
    (hc' : c' < u.width) (h : u.get_idx r c = u.get_idx r' c') :
    r = r' ∧ c = c' := by
  simp only [get_idx] at h
  have hw : 0 < u.width := Nat.lt_of_le_of_lt (Nat.zero_le c) hc
  have e1 : (r * u.width + c) / u.width = r := by
    rw [Nat.add_comm, Nat.add_mul_div_right c r hw, Nat.div_eq_of_lt hc,
      Nat.zero_add]
  have e2 : (r' * u.width + c') / u.width = r' := by
    rw [Nat.add_comm, Nat.add_mul_div_right c' r' hw, Nat.div_eq_of_lt hc',
      Nat.zero_add]
  have hr : r = r' := by rw [← e1, ← e2, h]
  subst hr
  exact ⟨rfl, Nat.add_left_cancel h⟩

theorem get_idx_lt (u : Universe) {row col : Nat} (hr : row < u.height)
    (hc : col < u.width) : u.get_idx row col < u.width * u.height := by
  simp only [get_idx]
  calc row * u.width + col < row * u.width + u.width := Nat.add_lt_add_left hc _
    _ = (row + 1) * u.width := by ring
    _ ≤ u.height * u.width := Nat.mul_le_mul_right _ hr
    _ = u.width * u.height := Nat.mul_comm _ _

theorem tickAux_getD (u : Universe) (m r c : Nat) (d : Cell)
    (hc : c < u.width) (hlt : u.get_idx r c < u.cells.length) :
    (tickAux u m).getD (u.get_idx r c) d =
      if r < m then
        nextCell (u.cellAt (u.get_idx r c)) (u.live_neighbor_count r c)
      else u.cells.getD (u.get_idx r c) d := by
  induction m with
  | zero => simp [tickAux]
  | succ m ih =>
    rw [tickAux_succ]
    by_cases hrm : r = m
    · subst hrm
      rw [writeRowAux_getD_set u r (tickAux u r) u.width c d hc
        (by rw [tickAux_length]; exact hlt)]
      rw [if_pos (Nat.lt_succ_self r)]
    · rw [writeRowAux_getD_ne u m (tickAux u m) u.width (u.get_idx r c) d
        (fun cc hcc hx => hrm (u.get_idx_inj hc hcc hx).1)]
      rw [ih]
      by_cases hlt2 : r < m
      · rw [if_pos hlt2, if_pos (Nat.lt_succ_of_lt hlt2)]
      · rw [if_neg hlt2, if_neg (by omega)]

theorem nextCell_alive (n : Nat) :
    nextCell Cell.Alive n = if n = 2 ∨ n = 3 then Cell.Alive else Cell.Dead := by
  simp only [nextCell]
  simp
  split_ifs <;> first | rfl | (exfalso; omega)

theorem nextCell_dead (n : Nat) :
    nextCell Cell.Dead n = if n = 3 then Cell.Alive else Cell.Dead := by
  simp only [nextCell]
  simp

end Universe

namespace Universe

/-- C1: one call of `tick` replaces the buffer with a new generation
in which the cell at every in-range (row, col) is `nextCell` of its
prior state and its live-neighbor count computed on the prior buffer
(the equation reads only the pre-tick universe `u`, so no value
written during the tick influences any neighbor count of that tick),
and `nextCell` realizes the B3/S23 rule case by case. -/
theorem tick_cell_rule (u : Universe) (hw : 0 < u.width) (hh : 0 < u.height)
    (hlen : u.cells.length = u.width * u.height) (row col : Nat)
    (hr : row < u.height) (hc : col < u.width) :
    (u.tick).cellAt (u.get_idx row col) =
      nextCell (u.cellAt (u.get_idx row col)) (u.live_neighbor_count row col) ∧
    (∀ n : Nat,
      (n < 2 → nextCell Cell.Alive n = Cell.Dead) ∧
      ((n = 2 ∨ n = 3) → nextCell Cell.Alive n = Cell.Alive) ∧
      (3 < n → nextCell Cell.Alive n = Cell.Dead) ∧
      nextCell Cell.Dead 3 = Cell.Alive ∧
      (n ≠ 3 → nextCell Cell.Dead n = Cell.Dead)) := by
  constructor
  · show (tickAux u u.height).getD (u.get_idx row col) Cell.Dead = _
    rw [tickAux_getD u u.height row col Cell.Dead hc
      (by rw [hlen]; exact u.get_idx_lt hr hc)]
    rw [if_pos hr]
  · intro n
    refine ⟨fun h => ?_, fun h => ?_, fun h => ?_, ?_, fun h => ?_⟩ <;>
      simp [nextCell_alive, nextCell_dead] <;> omega

/-- C1 witness: the tick equation and the rule cases instantiated on
the concrete 4 × 4 block universe at cell (1, 1). -/
theorem tick_cell_rule_wit :
    blockU.tick.cellAt (blockU.get_idx 1 1) =
      nextCell (blockU.cellAt (blockU.get_idx 1 1))
        (blockU.live_neighbor_count 1 1) ∧
    nextCell Cell.Alive 1 = Cell.Dead := by
  have h := blockU.tick_cell_rule (by decide) (by decide) (by decide)
    1 1 (by decide) (by decide)
  exact ⟨h.1, (h.2 1).1 (by decide)⟩

/-- C5: the buffer-size invariant. The constructed universe satisfies
`cells.length = width * height`, and `tick` preserves the buffer
length as well as the width and the height, so the invariant holds in
every reachable state. -/
theorem size_invariant :
    Universe.new.cells.length = Universe.new.width * Universe.new.height ∧
    ∀ u : Universe, u.cells.length = u.width * u.height →
      (u.tick).cells.length = (u.tick).width * (u.tick).height ∧
      (u.tick).width = u.width ∧ (u.tick).height = u.height ∧
      (u.tick).cells.length = u.cells.length := by
  refine ⟨?_, ?_⟩
  · simp [Universe.new]
  · intro u hlen
    have hl : (u.tick).cells.length = u.cells.length := u.tickAux_length u.height
    exact ⟨by rw [hl, hlen]; rfl, rfl, rfl, hl⟩

/-- C5 witness: the invariant instantiated on the block universe. -/
theorem size_invariant_wit :
    blockU.tick.cells.length = blockU.tick.width * blockU.tick.height ∧
    blockU.tick.width = blockU.width := by
  have h := size_invariant.2 blockU (by decide)
  exact ⟨h.1, h.2.1⟩

/-- C6: index safety. On a well-formed universe, every flat index
`get_idx` computes during `live_neighbor_count` (the wrapped neighbor
coordinates of an in-range cell) and during the `tick` scan (the cell
itself) is below `width * height = cells.length`, so every buffer
access is in bounds. -/
theorem neighbor_idx_safe (u : Universe) (hw : 0 < u.width)
    (hh : 0 < u.height) (hlen : u.cells.length = u.width * u.height)
    (row col : Nat) (hr : row < u.height) (hc : col < u.width) :
    (∀ d_row ∈ ([u.height - 1, 0, 1] : List Nat),
      ∀ d_col ∈ ([u.width - 1, 0, 1] : List Nat),
        u.get_idx ((d_row + row) % u.height) ((d_col + col) % u.width) <
          u.cells.length) ∧
    u.get_idx row col < u.cells.length := by
  constructor
  · intro d_row _ d_col _
    rw [hlen]
    exact u.get_idx_lt (Nat.mod_lt _ hh) (Nat.mod_lt _ hw)
  · rw [hlen]
    exact u.get_idx_lt hr hc

/-- C6 witness: index safety instantiated on the block universe at
cell (0, 0) and offset pair (height-1, width-1). -/
theorem neighbor_idx_safe_wit :
    blockU.get_idx ((blockU.height - 1 + 0) % blockU.height)
      ((blockU.width - 1 + 0) % blockU.width) < blockU.cells.length ∧
    blockU.get_idx 0 0 < blockU.cells.length := by
  have h := blockU.neighbor_idx_safe (by decide) (by decide) (by decide)
    0 0 (by decide) (by decide)
  exact ⟨h.1 (blockU.height - 1) (by simp) (blockU.width - 1) (by simp), h.2⟩

end Universe

namespace Universe

theorem getD_range_map (N i : Nat) (f : Nat → Cell) (hi : i < N) :
    ((List.range N).map f).getD i Cell.Dead = f i := by
  rw [List.getD_eq_getElem?_getD, List.getElem?_map, List.getElem?_range hi]
  rfl

theorem cellAt_new_eq (i : Nat) (hi : i < 128 * 64) :
    Universe.new.cellAt i =
      if i % 2 = 0 ∨ i % 7 = 0 then Cell.Alive else Cell.Dead := by
  simp only [cellAt, Universe.new]
  exact getD_range_map (128 * 64) i _ hi

/-- C4: the constructor is deterministic with width 128 and height 64,
the cell at each flat index i below 128 * 64 is alive iff i is even or
a multiple of 7, and the spot-check indices 0, 1, 7, 9 come out alive,
dead, alive, dead. -/
theorem new_seeding :
    Universe.new.width = 128 ∧ Universe.new.height = 64 ∧
    (∀ i, i < 128 * 64 →
      (Universe.new.cellAt i = Cell.Alive ↔ i % 2 = 0 ∨ i % 7 = 0)) ∧
    Universe.new.cellAt 0 = Cell.Alive ∧
    Universe.new.cellAt 1 = Cell.Dead ∧
    Universe.new.cellAt 7 = Cell.Alive ∧
    Universe.new.cellAt 9 = Cell.Dead := by
  have key : ∀ i, i < 128 * 64 →
      (Universe.new.cellAt i = Cell.Alive ↔ i % 2 = 0 ∨ i % 7 = 0) := by
    intro i hi
    rw [cellAt_new_eq i hi]
    by_cases h : i % 2 = 0 ∨ i % 7 = 0 <;> simp [h]
  refine ⟨rfl, rfl, key, ?_, ?_, ?_, ?_⟩
  · exact (key 0 (by omega)).mpr (by omega)
  · refine cell_eq_dead_of_ne_alive (fun h => ?_)
    have := (key 1 (by omega)).mp h
    omega
  · exact (key 7 (by omega)).mpr (by omega)
  · refine cell_eq_dead_of_ne_alive (fun h => ?_)
    have := (key 9 (by omega)).mp h
    omega

/-- C4 witness: the seeding rule instantiated at index 14 (a multiple
of both 2 and 7, hence alive). -/
theorem new_seeding_wit : Universe.new.cellAt 14 = Cell.Alive :=
  (new_seeding.2.2.1 14 (by omega)).mpr (by omega)

/-- C8: the only constructor takes no dimension arguments, so a
universe with a zero dimension can never be requested from it, and
every universe that construction produces has positive width and
height (namely 128 and 64). -/
theorem new_dims_pos : 0 < Universe.new.width ∧ 0 < Universe.new.height :=
  ⟨by decide, by decide⟩

end Universe

set_option maxRecDepth 4096 in
/-- The 2 × 2 block universe is one fixed point of a single tick. -/
theorem blockU_tick_fixed : blockU.tick = blockU := by decide

/-- C7: still-life fixed point. On the 4 × 4 toroidal universe whose
only alive cells are the 2 × 2 block at rows 1-2, columns 1-2, any
number of ticks leaves the universe (in particular its cell buffer)
exactly unchanged. -/
theorem blockU_still_life (n : Nat) : Universe.tickN n blockU = blockU := by
  induction n with
  | zero => rfl
  | succ n ih => rw [Universe.tickN, ih, blockU_tick_fixed]

/-- C7 witness: the fixed point instantiated at three ticks. -/
theorem blockU_still_life_wit : Universe.tickN 3 blockU = blockU :=
  blockU_still_life 3

/-- C10: on degenerate grids the neighbor count is a multiset sum. On
the width-2 universe a single alive cell horizontally adjacent to
(0, 0) is counted twice, because the column offsets width-1 = 1 and 1
coincide modulo 2; on the width-1 universe the (0, 0)-offset skip
fires more than once and the count of the all-else-dead cell (0, 0)
still comes out 1, because the cell's own state is among the summed
terms. -/
theorem degenerate_neighbor_sum :
    narrowU.live_neighbor_count 0 0 = 2 ∧
    narrowU.cells.count Cell.Alive = 1 ∧
    thinU.live_neighbor_count 0 0 = 1 ∧
    thinU.cellAt 0 = Cell.Alive ∧
    thinU.cellAt 1 = Cell.Dead ∧ thinU.cellAt 2 = Cell.Dead := by
  refine ⟨?_, ?_, ?_, ?_, ?_, ?_⟩ <;> decide

theorem chunksOf_nil (w : Nat) : chunksOf w [] = [] := by
  rw [chunksOf]
  simp

theorem chunksOf_cons (w : Nat) (l : List Cell) (hw : w ≠ 0) (hl : l ≠ []) :
    chunksOf w l = l.take w :: chunksOf w (l.drop w) := by
  rw [chunksOf, dif_neg (not_or.mpr ⟨hl, hw⟩)]

theorem chunksOf_spec (w : Nat) (hw : 0 < w) :
    ∀ (h : Nat) (l : List Cell), l.length = w * h →
      (chunksOf w l).length = h ∧ ∀ r ∈ chunksOf w l, r.length = w := by
  intro h
  induction h with
  | zero =>
    intro l hl
    have he : l = [] := List.eq_nil_of_length_eq_zero (by omega)
    subst he
    simp [chunksOf_nil]
  | succ h ih =>
    intro l hl
    have hwle : w ≤ l.length := by
      rw [hl]
      calc w = w * 1 := (Nat.mul_one w).symm
        _ ≤ w * (h + 1) := Nat.mul_le_mul_left w (by omega)
    have hlne : l ≠ [] := by
      intro he
      subst he
      simp at hwle
      omega
    rw [chunksOf_cons w l (by omega) hlne]
    have hlen_take : (l.take w).length = w := by
      rw [List.length_take]
      omega
    have hlen_drop : (l.drop w).length = w * h := by
      rw [List.length_drop, hl]
      have : w * (h + 1) = w * h + w := by ring
      omega
    obtain ⟨ih1, ih2⟩ := ih (l.drop w) hlen_drop
    refine ⟨by simp [ih1], ?_⟩
    intro r hr
    rcases List.mem_cons.mp hr with h1 | h2
    · rw [h1]
      exact hlen_take
    · exact ih2 r h2

namespace Universe

theorem flatten_glyph_length (w : Nat) :
    ∀ L : List (List Cell), (∀ r ∈ L, r.length = w) →
      ((L.map (fun line => line.map cellGlyph ++ ['\n'])).flatten).length =
        L.length * (w + 1) := by
  intro L
  induction L with
  | nil =>
    intro _
    simp
  | cons a L ih =>
    intro hmem
    simp only [List.map_cons, List.flatten_cons, List.length_append,
      List.length_cons, List.length_map]
    rw [ih (fun r hr => hmem r (List.mem_cons_of_mem a hr)),
      hmem a (List.mem_cons_self a L)]
    simp
    ring

/-- C9: textual rendering. On a well-formed universe the rendering is
built from exactly height row chunks of the buffer, each of exactly
width cells; each row contributes one glyph per cell in column order
followed by the newline separator, the alive and dead glyphs being
the two distinct fixed characters; the total length is therefore
height * (width + 1) characters. The rendering is a pure function of
the state and modifies nothing. -/
theorem render_structure (u : Universe) (hw : 0 < u.width)
    (hlen : u.cells.length = u.width * u.height) :
    (chunksOf u.width u.cells).length = u.height ∧
    (∀ line ∈ chunksOf u.width u.cells, line.length = u.width) ∧
    u.renderChars =
      ((chunksOf u.width u.cells).map
        (fun line => line.map cellGlyph ++ ['\n'])).flatten ∧
    cellGlyph Cell.Alive = '◻' ∧ cellGlyph Cell.Dead = '◼' ∧
    cellGlyph Cell.Alive ≠ cellGlyph Cell.Dead ∧
    u.renderChars.length = u.height * (u.width + 1) := by
  obtain ⟨h1, h2⟩ := chunksOf_spec u.width hw u.height u.cells hlen
  refine ⟨h1, h2, rfl, by decide, by decide, by decide, ?_⟩
  rw [renderChars, flatten_glyph_length u.width (chunksOf u.width u.cells) h2,
    h1]

/-- C9 witness: the rendering shape instantiated on the concrete
2 × 3 universe. -/
theorem render_structure_wit :
    (chunksOf narrowU.width narrowU.cells).length = narrowU.height ∧
    narrowU.renderChars.length = narrowU.height * (narrowU.width + 1) := by
  have h := narrowU.render_structure (by decide) (by decide)
  exact ⟨h.1, h.2.2.2.2.2.2⟩

end Universe
